import Mathlib

/-!
Shallow embedding of the versioned-holdings ledger and time-series valuation
engine of `src/backend/database.py` and `src/backend/main.py`.

Modelling conventions:
* money and prices are rationals (the source uses Python floats; the claims
  considered here involve only exact decimal arithmetic);
* timestamps (`updated_at`, `captured_at`, hourly `timestamp`) are naturals
  ordered chronologically (the source compares ISO-8601 strings, whose
  lexicographic order agrees with chronological order); the SQL `DATE(ts)`
  truncation is modelled by `dayOf`, integer division of a Unix-style second
  count by 86400;
* Python's `str.strip` / `str.lower` / `str.upper` are modelled by
  `pyStrip` / `pyLower` / `pyUpper`, character-level functions on the ASCII
  range the data uses;
* sqlite tables are lists of rows in insertion order; `AUTOINCREMENT` row
  ids are modelled by `nextId` (one more than the largest id present);
* Python dicts read only through `get` are modelled as functions into
  `Option`; dicts whose insertion order matters are association lists;
* each database function opens its own connection and the claims are about
  single calls, so functions take the table contents as arguments and
  return the new contents.
-/

/-- ASCII whitespace as Python's `str.strip` removes it on this data. -/
def isSpaceChar (c : Char) : Bool :=
  c == ' ' || c == '\t' || c == '\n' || c == '\r'

/-- Python `str.strip`: drop leading and trailing whitespace. -/
def pyStrip (s : String) : String :=
  String.mk (((s.data.dropWhile isSpaceChar).reverse.dropWhile isSpaceChar).reverse)

def lowerChar (c : Char) : Char :=
  if 'A' ≤ c && c ≤ 'Z' then Char.ofNat (c.toNat + 32) else c

def upperChar (c : Char) : Char :=
  if 'a' ≤ c && c ≤ 'z' then Char.ofNat (c.toNat - 32) else c

/-- Python `str.lower` on the ASCII range. -/
def pyLower (s : String) : String := String.mk (s.data.map lowerChar)

/-- Python `str.upper` on the ASCII range. -/
def pyUpper (s : String) : String := String.mk (s.data.map upperChar)

/-- One row of the `holdings` table (schema in `init_db`, database.py). -/
structure Holding where
  id : Nat
  holding_id : String
  account_type : String
  account : String
  ticker : Option String
  name : String
  category : String
  lookup : Option String
  shares : ℚ
  cost : ℚ
  current_price : ℚ
  contribution : ℚ
  last_updated : Nat
  is_deleted : Bool
  track_price : Bool
  manual_price_override : Bool
  value_override : Option ℚ
  convert_to_cad : Bool
  cad_conversion_rate : Option ℚ
  user_id : String
deriving Repr, DecidableEq

/-- One row of the `price_history` table: `(ticker, date)` unique,
`updated_at` the capture timestamp. -/
structure PriceRow where
  ticker : String
  price : ℚ
  date : Nat
  updated_at : Nat
deriving Repr, DecidableEq

/-- One row of the `price_history_hourly` table. -/
structure PriceRowH where
  ticker : String
  price : ℚ
  timestamp : Nat
deriving Repr, DecidableEq

/-- One row of the `portfolio_snapshots` table. -/
structure Snapshot where
  user_id : String
  captured_at : Nat
  total_value : ℚ
  total_contribution : ℚ
  total_gain : ℚ
  total_gain_percent : ℚ
deriving Repr, DecidableEq

/-- SQL `DATE(updated_at)` on a Unix-style second timestamp: the calendar
bucket a timestamp falls in. -/
def dayOf (t : Nat) : Nat := t / 86400

/-- Python's `a or b` on optional strings: `b` when `a` is `None` or empty. -/
def orElseStr (a b : Option String) : Option String :=
  match a with
  | some s => if s = "" then b else some s
  | none => b

/-- database.py `normalize_category_name`. -/
def normalize_category_name (category : Option String) : String :=
  match category with
  | none => ""
  | some c =>
    if c = "" then ""
    else
      let cleaned := pyStrip c
      if pyLower cleaned == "etf" || pyLower cleaned == "etfs" then "ETF" else cleaned

/-- database.py `_normalize_symbol`: `(value or '').strip().upper()`. -/
def normalize_symbol (value : Option String) : String :=
  pyUpper (pyStrip (value.getD ""))

/-- database.py `_is_cash_holding`: category (stripped, lowered) is `cash`,
or both ticker and lookup are blank after stripping. -/
def is_cash_holding (h : Holding) : Bool :=
  pyLower (pyStrip h.category) == "cash" ||
    (pyStrip (h.ticker.getD "") == "" && pyStrip (h.lookup.getD "") == "")

/-- main.py `_is_cash_holding`: same category test, but ticker/lookup are
tested for falsiness without stripping. -/
def is_cash_holding_main (h : Holding) : Bool :=
  pyLower (pyStrip h.category) == "cash" ||
    ((h.ticker.getD "") == "" && (h.lookup.getD "") == "")

/-- database.py `_calculate_holding_value`: the valuation resolver.
`value_override` wins outright; otherwise the effective unit price is the
historical sample exactly when the holding is neither manually price
overridden nor cash-equivalent and a sample is present, else the stored
current price (`current_price or 0` is the identity here since a zero
current price falls through to the same value). -/
def calculate_holding_value (h : Holding) (historical_price : Option ℚ) : ℚ :=
  match h.value_override with
  | some v => v
  | none =>
    let use_history_price := !h.manual_price_override && !is_cash_holding h
    let effective_price :=
      match historical_price with
      | some p => if use_history_price then p else h.current_price
      | none => h.current_price
    h.shares * effective_price

/-! ### Price sample store (database.py) -/

/-- database.py `add_price_history`: upsert on the `(ticker, date)` key;
the date defaults to the capture timestamp's calendar day. -/
def add_price_history (store : List PriceRow) (ticker : String) (price : ℚ)
    (date_override : Option Nat) (captured_at : Nat) : List PriceRow :=
  let date_str := date_override.getD (dayOf captured_at)
  if store.any (fun r => r.ticker == ticker && r.date == date_str) then
    store.map (fun r =>
      if r.ticker == ticker && r.date == date_str then
        { r with price := price, updated_at := captured_at } else r)
  else
    store ++ [{ ticker := ticker, price := price, date := date_str, updated_at := captured_at }]

/-- database.py `ensure_price_history_seed`: no-op unless tracking is on and
no manual override is set; strips the ticker; inserts one sample only when
the ticker has no daily sample at all (price `None` seeds as 0). -/
def ensure_price_history_seed (store : List PriceRow) (ticker : Option String)
    (price : Option ℚ) (track_price : Bool) (manual_price_override : Bool)
    (captured_at : Nat) : List PriceRow :=
  if !track_price || manual_price_override then store
  else
    let t := pyStrip (ticker.getD "")
    if t == "" then store
    else if store.any (fun r => r.ticker == t) then store
    else add_price_history store t (price.getD 0) none captured_at

/-! ### Holding ledger (database.py) -/

/-- sqlite `AUTOINCREMENT`: the next row id is larger than every stored id. -/
def nextId (table : List Holding) : Nat :=
  (table.map (fun h => h.id)).foldl Nat.max 0 + 1

/-- The caller-supplied field dictionary for create/update: `none` stands
for a key that is absent (or `None`) in the request. -/
structure HoldingData where
  account_type : String
  account : String
  ticker : Option String
  name : String
  category : Option String
  lookup : Option String
  shares : ℚ
  cost : ℚ
  current_price : ℚ
  contribution : Option ℚ
  track_price : Option Bool
  manual_price_override : Option Bool
  value_override : Option ℚ
  convert_to_cad : Option Bool
  cad_conversion_rate : Option ℚ
  user_id : Option String
deriving Repr, DecidableEq

/-- The row the shared INSERT of `create_holding` / `update_holding` writes:
contribution defaults to shares times cost, the category is normalized, and
the columns the INSERT omits (`is_deleted`, `user_id`) take their schema
defaults `FALSE` and `'default'` — any `user_id` on the input is ignored. -/
def newVersionRow (row_id : Nat) (logical_id : String) (data : HoldingData)
    (now : Nat) : Holding :=
  { id := row_id
    holding_id := logical_id
    account_type := data.account_type
    account := data.account
    ticker := data.ticker
    name := data.name
    category := normalize_category_name data.category
    lookup := data.lookup
    shares := data.shares
    cost := data.cost
    current_price := data.current_price
    contribution := data.contribution.getD (data.shares * data.cost)
    last_updated := now
    is_deleted := false
    track_price := data.track_price.getD true
    manual_price_override := data.manual_price_override.getD false
    value_override := data.value_override
    convert_to_cad := data.convert_to_cad.getD false
    cad_conversion_rate := data.cad_conversion_rate
    user_id := "default" }

/-- database.py `create_holding`: fresh logical id (passed in for the uuid),
one inserted version, then the price-history seed. Returns the new tables
and the new row id. -/
def create_holding (table : List Holding) (store : List PriceRow)
    (data : HoldingData) (logical_id : String) (now : Nat) :
    List Holding × List PriceRow × Nat :=
  let row_id := nextId table
  let row := newVersionRow row_id logical_id data now
  (table ++ [row],
   ensure_price_history_seed store (orElseStr data.lookup data.ticker)
     (some data.current_price) (data.track_price.getD true)
     (data.manual_price_override.getD false) now,
   row_id)

/-- database.py `update_holding`: resolve the logical id owning the row id
(`ValueError` if none), append a new version under it, then seed. -/
def update_holding (table : List Holding) (store : List PriceRow) (id : Nat)
    (data : HoldingData) (now : Nat) :
    Except String (List Holding × List PriceRow × Nat) :=
  match table.find? (fun h => h.id == id) with
  | none => Except.error "Holding not found"
  | some prev =>
    let row_id := nextId table
    let row := newVersionRow row_id prev.holding_id data now
    Except.ok (table ++ [row],
      ensure_price_history_seed store (orElseStr data.lookup data.ticker)
        (some data.current_price) (data.track_price.getD true)
        (data.manual_price_override.getD false) now,
      row_id)

/-- database.py `delete_holding`: resolve the logical id (`ValueError` if
the row id does not resolve), then flag every version under it deleted. -/
def delete_holding (table : List Holding) (id : Nat) :
    Except String (List Holding) :=
  match table.find? (fun h => h.id == id) with
  | none => Except.error "Holding not found"
  | some row =>
    Except.ok (table.map (fun g =>
      if g.holding_id == row.holding_id then { g with is_deleted := true } else g))

/-- The `latest` subquery shared by `get_all_holdings`,
`_get_holdings_snapshot` and `get_active_holdings`: a row is kept when it is
not deleted and its id is the maximum id among the non-deleted versions of
its logical holding id. -/
def is_latest_active (table : List Holding) (h : Holding) : Bool :=
  !h.is_deleted &&
    table.all (fun g =>
      !(g.holding_id == h.holding_id) || g.is_deleted || decide (g.id ≤ h.id))

/-- database.py `_get_holdings_snapshot` without a user filter: the latest
non-deleted version of each logical holding, in table order. -/
def holdings_snapshot (table : List Holding) : List Holding :=
  table.filter (fun h => is_latest_active table h)

/-- The optional `h.user_id = ?` clause. -/
def userFilter (user : Option String) (h : Holding) : Bool :=
  match user with
  | none => true
  | some u => h.user_id == u

/-- The `ORDER BY h.account_type, h.account, h.name` key. -/
def holdingKey (h : Holding) : Lex (String × Lex (String × String)) :=
  toLex (h.account_type, toLex (h.account, h.name))

def holdingLe (a b : Holding) : Prop := holdingKey a ≤ holdingKey b

instance : DecidableRel holdingLe :=
  fun a b => inferInstanceAs (Decidable (holdingKey a ≤ holdingKey b))

/-- The holding columns of database.py `get_all_holdings` (= the spec's
`listActive`): latest non-deleted version per logical id, optionally
filtered by owning user, ordered by account type, account, name. This is
the projection that drops the LEFT JOINed `latest_price` column; the full
result rows — including the row multiplication the LEFT JOIN causes when
several price rows of the lookup ticker tie at `MAX(updated_at)` — are
modelled by `get_all_holdings_rows` below, and the joined price column a
single consumer row carries is modelled by `latest_price_for`. -/
def get_all_holdings (table : List Holding) (user : Option String) : List Holding :=
  List.insertionSort holdingLe
    ((holdings_snapshot table).filter (fun h => userFilter user h))

/-- The `latest_price` column of one `get_all_holdings` LEFT JOIN row: the
price of a `price_history` row whose ticker equals the holding's lookup
(raw equality, as in SQL) with the greatest `updated_at`; `none` when there
is no such row. On an exact `updated_at` tie this picks the first tying
row; `get_all_holdings_rows` models the tie case in full. -/
def latest_price_for (store : List PriceRow) (lookup : Option String) : Option ℚ :=
  match lookup with
  | none => none
  | some lk =>
    (store.foldl (fun acc r =>
      if r.ticker == lk then
        match acc with
        | none => some (r.price, r.updated_at)
        | some e => if e.2 < r.updated_at then some (r.price, r.updated_at) else acc
      else acc) none).map (fun e => e.1)

/-! ### Daily reconstruction (database.py `get_portfolio_history`) -/

/-- One iteration of the `_build_price_map` loop: key the row by
(normalized ticker, calendar day of `updated_at`) and keep the entry with
the strictly greater write timestamp on collision. -/
def priceMapStep (m : String × Nat → Option (ℚ × Nat)) (row : PriceRow) :
    String × Nat → Option (ℚ × Nat) :=
  let k := (normalize_symbol (some row.ticker), dayOf row.updated_at)
  match m k with
  | none => fun q => if q = k then some (row.price, row.updated_at) else m q
  | some e =>
    if e.2 < row.updated_at then
      fun q => if q = k then some (row.price, row.updated_at) else m q
    else m

/-- database.py `_build_price_map`: the coalesced price map together with
the sorted set of distinct calendar days present in the rows. -/
def build_price_map (rows : List PriceRow) :
    (String × Nat → Option (ℚ × Nat)) × List Nat :=
  (rows.foldl priceMapStep (fun _ => none),
   List.insertionSort (fun a b : Nat => a ≤ b)
     ((rows.map (fun r => dayOf r.updated_at)).dedup))

/-- The inner loop of `get_portfolio_history`: one bucket's total. A holding
with a blank normalized lookup symbol is valued with no price entry. -/
def bucket_value (holdings : List Holding) (pm : String × Nat → Option (ℚ × Nat))
    (d : Nat) : ℚ :=
  holdings.foldl (fun total h =>
    let symbol := normalize_symbol h.lookup
    let entry := if symbol == "" then none else pm (symbol, d)
    total + calculate_holding_value h (entry.map (fun e => e.1))) 0

/-- database.py `get_portfolio_history`, given the holdings table and the
price rows of the window: empty when there are no price rows, else one
entry per distinct day in the rows, truncated to the most recent `days`. -/
def get_portfolio_history (table : List Holding) (rows : List PriceRow)
    (days : Nat) : List (Nat × ℚ) :=
  if rows.isEmpty then []
  else
    let holdings := holdings_snapshot table
    let pm := (build_price_map rows).1
    let history := (build_price_map rows).2.map (fun d => (d, bucket_value holdings pm d))
    if days < history.length then history.drop (history.length - days) else history

/-! ### Hourly reconstruction (database.py) -/

/-- The price map and bucket list of `get_portfolio_history_hourly`: the
map key normalizes the row ticker; the bucket list keeps a timestamp when
it differs from the last collected one (rows arrive ordered by timestamp). -/
def hourly_price_map_total (rows : List PriceRowH) :
    (String × Nat → Option ℚ) × List Nat :=
  rows.foldl (fun acc row =>
    let k := (normalize_symbol (some row.ticker), row.timestamp)
    ((fun q => if q = k then some row.price else acc.1 q),
     if acc.2.getLast? ≠ some row.timestamp then acc.2 ++ [row.timestamp] else acc.2))
    ((fun _ => none), [])

/-- The price map and bucket list of `get_account_type_history_hourly`:
identical except that the map key uses the RAW row ticker
(`ticker = row['ticker']`, no `_normalize_symbol`). -/
def hourly_price_map_acct (rows : List PriceRowH) :
    (String × Nat → Option ℚ) × List Nat :=
  rows.foldl (fun acc row =>
    let k := (row.ticker, row.timestamp)
    ((fun q => if q = k then some row.price else acc.1 q),
     if acc.2.getLast? ≠ some row.timestamp then acc.2 ++ [row.timestamp] else acc.2))
    ((fun _ => none), [])

/-- database.py `get_portfolio_history_hourly`, given table and rows. -/
def get_portfolio_history_hourly (table : List Holding) (rows : List PriceRowH)
    (hours : Nat) : List (Nat × ℚ) :=
  if rows.isEmpty then []
  else
    let holdings := holdings_snapshot table
    let pm := (hourly_price_map_total rows).1
    let history := (hourly_price_map_total rows).2.map (fun ts =>
      (ts, holdings.foldl (fun total h =>
        let symbol := normalize_symbol h.lookup
        let price := if symbol == "" then none else pm (symbol, ts)
        total + calculate_holding_value h price) 0))
    if hours < history.length then history.drop (history.length - hours) else history

/-- `daily_totals[account_type] = daily_totals.get(account_type, 0) + value`
on an insertion-ordered dict. -/
def bump_total (m : List (String × ℚ)) (k : String) (v : ℚ) : List (String × ℚ) :=
  if m.any (fun e => e.1 == k) then
    m.map (fun e => if e.1 == k then (e.1, e.2 + v) else e)
  else m ++ [(k, v)]

/-- `history_by_account.setdefault(account_type, []).append(point)`. -/
def append_hist (m : List (String × List (Nat × ℚ))) (k : String)
    (p : Nat × ℚ) : List (String × List (Nat × ℚ)) :=
  if m.any (fun e => e.1 == k) then
    m.map (fun e => if e.1 == k then (e.1, e.2 ++ [p]) else e)
  else m ++ [(k, [p])]

/-- database.py `get_account_type_history_hourly`, given table and rows. -/
def get_account_type_history_hourly (table : List Holding)
    (rows : List PriceRowH) (hours : Nat) : List (String × List (Nat × ℚ)) :=
  if rows.isEmpty then []
  else
    let holdings := holdings_snapshot table
    let pm := (hourly_price_map_acct rows).1
    let hba := (hourly_price_map_acct rows).2.foldl (fun hba ts =>
      let daily_totals := holdings.foldl (fun dt h =>
        let symbol := normalize_symbol h.lookup
        let price := if symbol == "" then none else pm (symbol, ts)
        bump_total dt h.account_type (calculate_holding_value h price)) []
      daily_totals.foldl (fun acc e => append_hist acc e.1 (ts, e.2)) hba) []
    hba.map (fun e =>
      (e.1, if hours < e.2.length then e.2.drop (e.2.length - hours) else e.2))

/-! ### Per-ticker bounded reads (database.py) -/

def priceRowDateGe (a b : PriceRow) : Prop := b.date ≤ a.date

instance : DecidableRel priceRowDateGe := fun a b => Nat.decLe b.date a.date

/-- database.py `get_price_history` (the later definition, line 764):
`WHERE ticker = ? ORDER BY date DESC LIMIT ?`. -/
def get_price_history (store : List PriceRow) (ticker : String) (days : Nat) :
    List (Nat × ℚ) :=
  ((List.insertionSort priceRowDateGe
      (store.filter (fun r => r.ticker == ticker))).map
    (fun r => (r.date, r.price))).take days

def priceRowHTsLe (a b : PriceRowH) : Prop := a.timestamp ≤ b.timestamp

instance : DecidableRel priceRowHTsLe := fun a b => Nat.decLe a.timestamp b.timestamp

/-- database.py `get_price_history_hourly`:
`WHERE ticker = ? ORDER BY timestamp ASC LIMIT ?` — note the ASCENDING
order, so LIMIT keeps the earliest rows. -/
def get_price_history_hourly (store : List PriceRowH) (ticker : String)
    (hours : Nat) : List (Nat × ℚ) :=
  ((List.insertionSort priceRowHTsLe
      (store.filter (fun r => r.ticker == ticker))).map
    (fun r => (r.timestamp, r.price))).take hours

/-! ### Stats, enrichment and the movement calculator (main.py) -/

structure Stats where
  total_value : ℚ
  total_cost : ℚ
  total_gain : ℚ
  total_gain_percent : ℚ
  holdings_count : Nat
deriving Repr, DecidableEq

/-- main.py `calculate_portfolio_stats`. -/
def calculate_portfolio_stats (holdings : List Holding) : Stats :=
  if holdings.isEmpty then
    { total_value := 0, total_cost := 0, total_gain := 0,
      total_gain_percent := 0, holdings_count := 0 }
  else
    let total_value := (holdings.map (fun h => h.shares * h.current_price)).sum
    let total_contribution := (holdings.map (fun h => h.contribution)).sum
    let total_gain := total_value - total_contribution
    let total_gain_percent :=
      if 0 < total_contribution then total_gain / total_contribution * 100 else 0
    { total_value := total_value, total_cost := total_contribution,
      total_gain := total_gain, total_gain_percent := total_gain_percent,
      holdings_count := holdings.length }

/-- The refreshed per-holding price of main.py
`enrich_holdings_with_calculations`: the latest stored price when the
holding tracks prices (not manually overridden, not cash in main.py's
sense) and a latest price exists, else the stored current price. -/
def enriched_current_price (store : List PriceRow) (h : Holding) : ℚ :=
  match latest_price_for store h.lookup with
  | some lp =>
    if !h.manual_price_override && !is_cash_holding_main h then lp
    else h.current_price
  | none => h.current_price

/-- The portfolio stats `enrich_holdings_with_calculations` returns: the
stats of the holdings with their `current_price` refreshed (the only
enriched field `calculate_portfolio_stats` reads besides the unchanged
`shares` and `contribution`). -/
def enrich_stats (store : List PriceRow) (holdings : List Holding) : Stats :=
  calculate_portfolio_stats
    (holdings.map (fun h => { h with current_price := enriched_current_price store h }))

def snapLe (a b : Snapshot) : Prop := a.captured_at ≤ b.captured_at

instance : DecidableRel snapLe := fun a b => Nat.decLe a.captured_at b.captured_at

/-- database.py `get_portfolio_snapshots_since`: the user's snapshots with
`captured_at >= start` (all of them when no start), ordered ascending. -/
def snapshots_since (snaps : List Snapshot) (user : String)
    (start : Option Nat) : List Snapshot :=
  List.insertionSort snapLe
    (snaps.filter (fun s =>
      s.user_id == user &&
        match start with
        | some st => decide (st ≤ s.captured_at)
        | none => true))

/-- database.py `get_latest_portfolio_snapshot`:
`ORDER BY captured_at DESC LIMIT 1`. -/
def latest_snapshot (snaps : List Snapshot) (user : String) : Option Snapshot :=
  (snaps.filter (fun s => s.user_id == user)).foldl (fun acc s =>
    match acc with
    | none => some s
    | some m => if m.captured_at < s.captured_at then some s else acc) none

/-- database.py `get_portfolio_snapshot_before`: the latest snapshot with
`captured_at <= before`. -/
def snapshot_before (snaps : List Snapshot) (user : String) (before : Nat) :
    Option Snapshot :=
  ((snaps.filter (fun s => s.user_id == user && decide (s.captured_at ≤ before))).foldl
    (fun acc s =>
      match acc with
      | none => some s
      | some m => if m.captured_at < s.captured_at then some s else acc) none)

structure MovementResult where
  current_value : ℚ
  previous_value : ℚ
  change : ℚ
  change_percent : Option ℚ
  points : List (Nat × ℚ)
  last_updated_at : Nat
deriving Repr, DecidableEq

/-- main.py `api_portfolio_movement`, given the snapshot store, the holdings
table, the daily price store, the resolved user, the resolved range start
(`none` for `all`) and the current time. Points are (timestamp, value)
pairs. -/
def api_portfolio_movement (snaps : List Snapshot) (table : List Holding)
    (store : List PriceRow) (user : String) (start_time : Option Nat)
    (now : Nat) : MovementResult :=
  let snapshots0 := snapshots_since snaps user start_time
  let snapshots :=
    if snapshots0.isEmpty then
      match latest_snapshot snaps user with
      | some s => [s]
      | none => []
    else snapshots0
  let holdings := get_all_holdings table (some user)
  let current_stats := enrich_stats store holdings
  let current_value := current_stats.total_value
  let current_point : Nat × ℚ := (now, current_value)
  let pts0 := snapshots.map (fun s => (s.captured_at, s.total_value))
  let pts1 := if pts0.isEmpty then [current_point] else pts0
  let baseline := pts1.headD current_point
  let pts2 :=
    match start_time with
    | none => pts1
    | some st =>
      if st < baseline.1 then
        match snapshot_before snaps user st with
        | some prior => (prior.captured_at, prior.total_value) :: pts1
        | none => pts1
      else pts1
  let last_updated_at := if snapshots.isEmpty then now else (pts2.getLastD current_point).1
  let pts3 := if (pts2.getLastD current_point).1 ≠ now then pts2 ++ [current_point] else pts2
  let contribution_value := current_stats.total_cost
  let change := current_value - contribution_value
  let change_percent :=
    if contribution_value ≠ 0 then some (change / contribution_value * 100) else none
  { current_value := current_value
    previous_value := contribution_value
    change := change
    change_percent := change_percent
    points := pts3
    last_updated_at := last_updated_at }

/-! ### Specification-side definitions for the reconstruction claims -/

/-- The last-write-wins price entry the spec describes for one
(normalized ticker, bucket) key, computed directly over the price rows:
the row with the greatest write timestamp among those matching the key
(the first such row on exact timestamp ties, as in the code). -/
def lwwStep (sym : String) (d : Nat) (acc : Option (ℚ × Nat)) (r : PriceRow) :
    Option (ℚ × Nat) :=
  if normalize_symbol (some r.ticker) = sym ∧ dayOf r.updated_at = d then
    match acc with
    | none => some (r.price, r.updated_at)
    | some e => if e.2 < r.updated_at then some (r.price, r.updated_at) else acc
  else acc

def lwwEntry (rows : List PriceRow) (sym : String) (d : Nat) : Option (ℚ × Nat) :=
  rows.foldl (lwwStep sym d) none

/-- The historical price the spec assigns a holding at a bucket: the
last-write-wins entry of its normalized lookup symbol, none for a blank
symbol or when no row matches. -/
def hist_price_at (rows : List PriceRow) (h : Holding) (d : Nat) : Option ℚ :=
  (if normalize_symbol h.lookup == "" then none
   else lwwEntry rows (normalize_symbol h.lookup) d).map (fun e => e.1)

/-- A bounded read in most-recent-first order: each row's key is at least
the next row's. -/
def most_recent_first (l : List (Nat × ℚ)) : Prop :=
  l.Pairwise (fun a b => b.1 ≤ a.1)

/-! ### Claim C1 -/

/-- Claim C1: the valuation resolver returns the absolute value override
verbatim when set (shares and price ignored); otherwise shares times the
stored current price when the holding is cash-equivalent or manually price
overridden, never consulting the historical sample; otherwise shares times
the historical sample when present and shares times the stored current
price when absent. -/
theorem C1_valuation_resolver_policy (h : Holding) (p : Option ℚ) :
    (∀ v : ℚ, h.value_override = some v → calculate_holding_value h p = v) ∧
    (h.value_override = none →
      (is_cash_holding h = true ∨ h.manual_price_override = true) →
      calculate_holding_value h p = h.shares * h.current_price) ∧
    (h.value_override = none → is_cash_holding h = false →
      h.manual_price_override = false →
      calculate_holding_value h p = h.shares * p.getD h.current_price) := by
  refine ⟨fun v hv => ?_, fun hov hcm => ?_, fun hov hc hm => ?_⟩
  · simp [calculate_holding_value, hv]
  · rcases hcm with hc | hm <;> cases p <;> simp_all [calculate_holding_value]
  · cases p <;> simp_all [calculate_holding_value]

/-- Concrete instantiation of C1: a tracked non-cash holding of 3 shares,
current price 7, valued against a historical sample of 11. -/
theorem C1_valuation_resolver_policy_witness :
    calculate_holding_value
      { id := 1, holding_id := "L1", account_type := "TFSA", account := "A",
        ticker := some "ABC", name := "Abc", category := "Stock",
        lookup := some "ABC", shares := 3, cost := 5, current_price := 7,
        contribution := 15, last_updated := 0, is_deleted := false,
        track_price := true, manual_price_override := false,
        value_override := none, convert_to_cad := false,
        cad_conversion_rate := none, user_id := "default" } (some 11) = 33 := by
  rw [(C1_valuation_resolver_policy
    { id := 1, holding_id := "L1", account_type := "TFSA", account := "A",
      ticker := some "ABC", name := "Abc", category := "Stock",
      lookup := some "ABC", shares := 3, cost := 5, current_price := 7,
      contribution := 15, last_updated := 0, is_deleted := false,
      track_price := true, manual_price_override := false,
      value_override := none, convert_to_cad := false,
      cad_conversion_rate := none, user_id := "default" } (some 11)).2.2
    rfl (by decide) rfl]
  show (3 : ℚ) * 11 = 33
  norm_num

/-! ### Claim C5 -/

/-- `ensure_price_history_seed` is a no-op when tracking is off or a
manual price override is set. -/
lemma seed_noop_of_disabled (store : List PriceRow) (ticker : Option String)
    (price : Option ℚ) (track manual : Bool) (t : Nat)
    (h : (!track || manual) = true) :
    ensure_price_history_seed store ticker price track manual t = store := by
  simp [ensure_price_history_seed, h]

/-- `ensure_price_history_seed` is a no-op when the stripped ticker is
blank. -/
lemma seed_noop_of_blank (store : List PriceRow) (ticker : Option String)
    (price : Option ℚ) (track manual : Bool) (t : Nat)
    (h : (pyStrip (ticker.getD "") == "") = true) :
    ensure_price_history_seed store ticker price track manual t = store := by
  by_cases h1 : (!track || manual) = true
  · simp [ensure_price_history_seed, h1]
  · simp only [Bool.not_eq_true] at h1
    simp [ensure_price_history_seed, h1, h]

/-- `ensure_price_history_seed` is a no-op when some row already carries
the stripped ticker. -/
lemma seed_noop_of_mem (store : List PriceRow) (ticker : Option String)
    (price : Option ℚ) (track manual : Bool) (t : Nat)
    (hex : ∃ r ∈ store, r.ticker = pyStrip (ticker.getD "")) :
    ensure_price_history_seed store ticker price track manual t = store := by
  by_cases h1 : (!track || manual) = true
  · simp [ensure_price_history_seed, h1]
  · simp only [Bool.not_eq_true] at h1
    by_cases h2 : (pyStrip (ticker.getD "") == "") = true
    · simp [ensure_price_history_seed, h1, h2]
    · simp only [Bool.not_eq_true] at h2
      have hany : (store.any fun r => r.ticker == pyStrip (ticker.getD "")) = true := by
        rcases hex with ⟨r, hr, ht⟩
        exact List.any_eq_true.mpr ⟨r, hr, by simp [ht]⟩
      simp [ensure_price_history_seed, h1, h2, hany]

/-- When enabled, with a nonblank stripped ticker no row carries,
`ensure_price_history_seed` appends exactly one row. -/
lemma seed_inserts (store : List PriceRow) (ticker : Option String)
    (price : Option ℚ) (track manual : Bool) (t : Nat)
    (h1 : (!track || manual) = false)
    (h2 : (pyStrip (ticker.getD "") == "") = false)
    (hnot : ∀ r ∈ store, r.ticker ≠ pyStrip (ticker.getD "")) :
    ensure_price_history_seed store ticker price track manual t =
      store ++ [⟨pyStrip (ticker.getD ""), price.getD 0, dayOf t, t⟩] := by
  have h3 : (store.any fun r => r.ticker == pyStrip (ticker.getD "")) = false := by
    apply List.any_eq_false.mpr
    intro r hr
    simp [hnot r hr]
  have hstep : ensure_price_history_seed store ticker price track manual t =
      add_price_history store (pyStrip (ticker.getD "")) (price.getD 0) none t := by
    simp only [ensure_price_history_seed]
    rw [if_neg (by simp [h1]), if_neg (by simp [h2]), if_neg (by simp [h3])]
  rw [hstep]
  have h4 : (store.any fun r =>
      r.ticker == pyStrip (ticker.getD "") &&
        r.date == (none : Option Nat).getD (dayOf t)) = false := by
    apply List.any_eq_false.mpr
    intro r hr
    simp [hnot r hr]
  simp only [add_price_history]
  rw [if_neg (by simp only [h4]; exact fun h => nomatch h)]
  rfl

/-- Claim C5: seeding is a no-op when tracking is disabled or a manual
price override is set, and a no-op whenever the (stripped) ticker already
has a daily sample; when it does change the store the ticker had no prior
sample and exactly one row is appended; seeding twice (with a different
price the second time) retains the first stored price. -/
theorem C5_seed_if_absent (store : List PriceRow) (ticker : Option String)
    (price : Option ℚ) (track manual : Bool) (t : Nat)
    (price2 : Option ℚ) (t2 : Nat) :
    (track = false ∨ manual = true →
      ensure_price_history_seed store ticker price track manual t = store) ∧
    ((∃ r ∈ store, r.ticker = pyStrip (ticker.getD "")) →
      ensure_price_history_seed store ticker price track manual t = store) ∧
    (ensure_price_history_seed store ticker price track manual t ≠ store →
      (∀ r ∈ store, r.ticker ≠ pyStrip (ticker.getD "")) ∧
      ensure_price_history_seed store ticker price track manual t =
        store ++ [⟨pyStrip (ticker.getD ""), price.getD 0, dayOf t, t⟩]) ∧
    ensure_price_history_seed
        (ensure_price_history_seed store ticker price track manual t)
        ticker price2 track manual t2 =
      ensure_price_history_seed store ticker price track manual t := by
  refine ⟨?_, seed_noop_of_mem _ _ _ _ _ _, ?_, ?_⟩
  · rintro (h | h) <;> exact seed_noop_of_disabled _ _ _ _ _ _ (by simp [h])
  · intro hne
    by_cases h1 : (!track || manual) = true
    · exact absurd (seed_noop_of_disabled _ _ price _ _ t h1) hne
    · simp only [Bool.not_eq_true] at h1
      by_cases h2 : (pyStrip (ticker.getD "") == "") = true
      · exact absurd (seed_noop_of_blank _ _ price _ _ t h2) hne
      · simp only [Bool.not_eq_true] at h2
        by_cases h3 : (store.any fun r => r.ticker == pyStrip (ticker.getD "")) = true
        · refine absurd (seed_noop_of_mem _ _ price _ _ t ?_) hne
          rcases List.any_eq_true.mp h3 with ⟨r, hr, ht⟩
          exact ⟨r, hr, by simpa using ht⟩
        · simp only [Bool.not_eq_true] at h3
          have hnot : ∀ r ∈ store, r.ticker ≠ pyStrip (ticker.getD "") := by
            intro r hr
            have := List.any_eq_false.mp h3 r hr
            simpa using this
          exact ⟨hnot, seed_inserts _ _ _ _ _ _ h1 h2 hnot⟩
  · by_cases h1 : (!track || manual) = true
    · rw [seed_noop_of_disabled _ _ price _ _ t h1,
        seed_noop_of_disabled _ _ price2 _ _ t2 h1]
    · simp only [Bool.not_eq_true] at h1
      by_cases h2 : (pyStrip (ticker.getD "") == "") = true
      · rw [seed_noop_of_blank _ _ price _ _ t h2,
          seed_noop_of_blank _ _ price2 _ _ t2 h2]
      · simp only [Bool.not_eq_true] at h2
        by_cases h3 : (store.any fun r => r.ticker == pyStrip (ticker.getD "")) = true
        · have hex : ∃ r ∈ store, r.ticker = pyStrip (ticker.getD "") := by
            rcases List.any_eq_true.mp h3 with ⟨r, hr, ht⟩
            exact ⟨r, hr, by simpa using ht⟩
          rw [seed_noop_of_mem _ _ price _ _ t hex,
            seed_noop_of_mem _ _ price2 _ _ t2 hex]
        · simp only [Bool.not_eq_true] at h3
          have hnot : ∀ r ∈ store, r.ticker ≠ pyStrip (ticker.getD "") := by
            intro r hr
            have := List.any_eq_false.mp h3 r hr
            simpa using this
          rw [seed_inserts _ _ _ _ _ _ h1 h2 hnot]
          exact seed_noop_of_mem _ _ _ _ _ _
            ⟨_, List.mem_append_right _ (List.mem_singleton_self _), rfl⟩

/-! ### Claim C6 -/

/-- Claim C6: an unresolvable row id makes both `update_holding` and
`delete_holding` fail with the NotFound error and (being pure functions of
the table) leave the holdings unchanged; a resolvable row id makes
`delete_holding` flag every version sharing the resolved row's logical
holding id as deleted while removing no row. -/
theorem C6_update_delete_not_found (table : List Holding)
    (store : List PriceRow) (id : Nat) (data : HoldingData) (now : Nat) :
    ((∀ h ∈ table, h.id ≠ id) →
      update_holding table store id data now = Except.error "Holding not found" ∧
      delete_holding table id = Except.error "Holding not found") ∧
    (∀ r, table.find? (fun h => h.id == id) = some r →
      delete_holding table id =
        Except.ok (table.map (fun g =>
          if g.holding_id = r.holding_id then { g with is_deleted := true } else g)) ∧
      ∀ t', delete_holding table id = Except.ok t' →
        t'.length = table.length ∧
        ∀ g ∈ table, g.holding_id = r.holding_id →
          { g with is_deleted := true } ∈ t') := by
  constructor
  · intro hnone
    have hf : table.find? (fun h => h.id == id) = none := by
      apply List.find?_eq_none.mpr
      intro h hh
      simpa using hnone h hh
    exact ⟨by simp [update_holding, hf], by simp [delete_holding, hf]⟩
  · intro r hr
    have hdel : delete_holding table id =
        Except.ok (table.map (fun g =>
          if g.holding_id = r.holding_id then { g with is_deleted := true } else g)) := by
      simp only [delete_holding, hr]
      congr 1
      apply List.map_congr_left
      intro g _
      by_cases h : g.holding_id = r.holding_id <;> simp [h]
    refine ⟨hdel, fun t' ht' => ?_⟩
    rw [hdel] at ht'
    have ht'' : t' = table.map (fun g =>
        if g.holding_id = r.holding_id then { g with is_deleted := true } else g) := by
      cases ht'; rfl
    subst ht''
    constructor
    · exact List.length_map _ _
    · intro g hg hgid
      have : (fun g =>
          if g.holding_id = r.holding_id then { g with is_deleted := true } else g) g =
          { g with is_deleted := true } := by simp [hgid]
      rw [← this]
      exact List.mem_map_of_mem _ hg

/-! ### Claim C7 -/

/-- The `MAX(ph2.updated_at)` subquery of `get_all_holdings` for one
ticker: `none` when the ticker has no daily price rows. -/
def max_updated_at (store : List PriceRow) (lk : String) : Option Nat :=
  (store.filter (fun r => r.ticker == lk)).foldl
    (fun acc r =>
      match acc with
      | none => some r.updated_at
      | some m => if m < r.updated_at then some r.updated_at else acc) none

/-- The price rows the LEFT JOIN of `get_all_holdings` matches for one
holding: every price row of the lookup ticker whose `updated_at` equals
that ticker's maximum. Empty for a NULL lookup or for a ticker with no
rows (a SQL comparison with NULL is never true). -/
def join_matches (store : List PriceRow) (lookup : Option String) : List PriceRow :=
  match lookup with
  | none => []
  | some lk =>
    match max_updated_at store lk with
    | none => []
    | some m => store.filter (fun r => r.ticker == lk && r.updated_at == m)

/-- The `latest_price` values the LEFT JOIN emits for one holding: a single
NULL when nothing matches, else one value per matching row — several when
price rows tie at `MAX(updated_at)`. -/
def join_prices (store : List PriceRow) (lookup : Option String) : List (Option ℚ) :=
  if (join_matches store lookup).isEmpty then [none]
  else (join_matches store lookup).map (fun r => some r.price)

/-- The `ORDER BY` key on a full result row of `get_all_holdings`. -/
def rowLe (a b : Holding × Option ℚ) : Prop := holdingKey a.1 ≤ holdingKey b.1

instance : DecidableRel rowLe :=
  fun a b => inferInstanceAs (Decidable (holdingKey a.1 ≤ holdingKey b.1))

/-- database.py `get_all_holdings`, the full query: the latest non-deleted
version of each logical id, LEFT JOINed against the latest price rows of
its lookup ticker — one output row per matching price row, so the same
version appears several times when price rows tie at `MAX(updated_at)` —
user-filtered, ordered by account type, account, name. -/
def get_all_holdings_rows (table : List Holding) (store : List PriceRow)
    (user : Option String) : List (Holding × Option ℚ) :=
  List.insertionSort rowLe
    (((holdings_snapshot table).filter (fun h => userFilter user h)).flatMap
      (fun h => (join_prices store h.lookup).map (fun p => (h, p))))

/-- The `latest` predicate in propositional form. -/
lemma is_latest_active_iff (table : List Holding) (h : Holding) :
    is_latest_active table h = true ↔
      (h.is_deleted = false ∧
        ∀ g ∈ table, g.holding_id = h.holding_id → g.is_deleted = false →
          g.id ≤ h.id) := by
  simp only [is_latest_active, Bool.and_eq_true, Bool.not_eq_true',
    List.all_eq_true, Bool.or_eq_true, beq_iff_eq, decide_eq_true_eq,
    Bool.not_eq_true]
  constructor
  · rintro ⟨hd, hall⟩
    refine ⟨hd, fun g hg hid hgd => ?_⟩
    rcases hall g hg with (hne | hdel) | hle
    · exact absurd hid (by simpa using hne)
    · exact absurd hdel (by simp [hgd])
    · exact hle
  · rintro ⟨hd, hall⟩
    refine ⟨hd, fun g hg => ?_⟩
    by_cases hid : g.holding_id = h.holding_id
    · by_cases hgd : g.is_deleted = true
      · exact Or.inl (Or.inr hgd)
      · exact Or.inr (hall g hg hid (by simpa using hgd))
    · exact Or.inl (Or.inl (by simpa using hid))

/-- The user filter in propositional form. -/
lemma userFilter_iff (user : Option String) (h : Holding) :
    userFilter user h = true ↔ (∀ u, user = some u → h.user_id = u) := by
  cases user with
  | none => simp [userFilter]
  | some u => simp [userFilter]

/-- `join_prices` never yields an empty list: the LEFT JOIN always emits at
least one row per holding. -/
lemma join_prices_ne_nil (store : List PriceRow) (lookup : Option String) :
    join_prices store lookup ≠ [] := by
  unfold join_prices
  split
  · simp
  · rename_i hm
    simp only [ne_eq, List.map_eq_nil_iff]
    intro hnil
    rw [hnil] at hm
    simp at hm

/-- Full-row membership of `get_all_holdings_rows` reduced to the raw
filters and the join. -/
lemma mem_get_all_holdings_rows (table : List Holding) (store : List PriceRow)
    (user : Option String) (h : Holding) (p : Option ℚ) :
    (h, p) ∈ get_all_holdings_rows table store user ↔
      (h ∈ table ∧ is_latest_active table h = true ∧ userFilter user h = true ∧
        p ∈ join_prices store h.lookup) := by
  unfold get_all_holdings_rows holdings_snapshot
  rw [List.mem_insertionSort, List.mem_flatMap]
  constructor
  · rintro ⟨g, hg, hmem⟩
    rcases List.mem_map.mp hmem with ⟨q, hq, heq⟩
    injection heq with h1 h2
    subst h1
    subst h2
    rcases List.mem_filter.mp hg with ⟨hg2, hu⟩
    rcases List.mem_filter.mp hg2 with ⟨ht, hl⟩
    exact ⟨ht, hl, hu, hq⟩
  · rintro ⟨ht, hl, hu, hp⟩
    exact ⟨h, List.mem_filter.mpr ⟨List.mem_filter.mpr ⟨ht, hl⟩, hu⟩,
      List.mem_map.mpr ⟨p, hp, rfl⟩⟩

/-- Counting an element of a duplicate-free list in the concatenation of
per-element runs yields that element's run length. -/
lemma count_flatMap_replicate (l : List Holding) (f : Holding → Nat) :
    l.Nodup → ∀ h ∈ l,
      (l.flatMap (fun g => List.replicate (f g) g)).count h = f h := by
  induction l with
  | nil => intro _ h hh; cases hh
  | cons g l ih =>
    intro hnd h hh
    rw [List.flatMap_cons, List.count_append]
    rcases List.mem_cons.mp hh with rfl | hh'
    · have hnl : h ∉ l := (List.nodup_cons.mp hnd).1
      have h2 : (l.flatMap (fun g' => List.replicate (f g') g')).count h = 0 := by
        apply List.count_eq_zero.mpr
        intro hmem
        rcases List.mem_flatMap.mp hmem with ⟨g', hg', hrep⟩
        exact hnl (List.eq_of_mem_replicate hrep ▸ hg')
      rw [h2, List.count_replicate]
      simp
    · have hg : h ≠ g := by
        rintro rfl
        exact (List.nodup_cons.mp hnd).1 hh'
      rw [List.count_replicate, ih (List.nodup_cons.mp hnd).2 h hh']
      simp [Ne.symm hg]

/-- A latest non-deleted holding whose lookup ticker `A` will carry two
price rows tying at the maximal write timestamp. -/
def c7_holding : Holding :=
  { id := 1, holding_id := "N1", account_type := "TFSA", account := "A",
    ticker := some "A", name := "N", category := "Stock",
    lookup := some "A", shares := 1, cost := 1, current_price := 1,
    contribution := 1, last_updated := 0, is_deleted := false,
    track_price := true, manual_price_override := false,
    value_override := none, convert_to_cad := false,
    cad_conversion_rate := none, user_id := "default" }

/-- Counterexample to C7 as stated: with two price rows for ticker `A` on
different dates sharing `updated_at = 5` (a tie at `MAX(updated_at)`, a
state the second-precision timestamps of the schema can reach), the LEFT
JOIN of the active listing emits the same holding version twice — not
exactly one version per logical holding id. -/
theorem C7_counterexample :
    (get_all_holdings_rows [c7_holding]
        [⟨"A", 1, 0, 5⟩, ⟨"A", 2, 1, 5⟩] (some "default")).map Prod.fst =
      [c7_holding, c7_holding] ∧
    ((get_all_holdings_rows [c7_holding]
        [⟨"A", 1, 0, 5⟩, ⟨"A", 2, 1, 5⟩] (some "default")).map
      Prod.fst).length ≠ 1 := by
  have hsnap : holdings_snapshot [c7_holding] = [c7_holding] := by decide
  have huf : userFilter (some "default") c7_holding = true := by decide
  have hlk7 : c7_holding.lookup = some "A" := rfl
  have hjp : join_prices [⟨"A", 1, 0, 5⟩, ⟨"A", 2, 1, 5⟩] (some "A") =
      [some 1, some 2] := by decide
  have hle : rowLe (c7_holding, some 1) (c7_holding, some 2) :=
    le_refl (holdingKey c7_holding)
  have heval : get_all_holdings_rows [c7_holding]
      [⟨"A", 1, 0, 5⟩, ⟨"A", 2, 1, 5⟩] (some "default") =
      [(c7_holding, some 1), (c7_holding, some 2)] := by
    simp [get_all_holdings_rows, hsnap, huf, hlk7, hjp,
      List.insertionSort, List.orderedInsert, hle]
  rw [heval]
  exact ⟨rfl, by simp⟩

/-- Claim C7 as amended: the active listing returns, per logical holding
id, only its maximum-row-id non-deleted version — never a version of a
fully deleted logical id — restricted to the requested user and ordered by
account type, account, name; every qualifying version is returned (with
some joined latest price), and, with distinct row ids, the same version
value is the only one of its logical id and is emitted exactly once per
latest-price row of its lookup ticker: once in the no-tie (or no-price)
case, once per tying row when several price rows share `MAX(updated_at)`. -/
theorem C7_list_active_rows (table : List Holding) (store : List PriceRow)
    (user : Option String) :
    (∀ (h : Holding) (p : Option ℚ),
      (h, p) ∈ get_all_holdings_rows table store user ↔
        (h ∈ table ∧ h.is_deleted = false ∧
          (∀ g ∈ table, g.holding_id = h.holding_id → g.is_deleted = false →
            g.id ≤ h.id) ∧
          (∀ u, user = some u → h.user_id = u) ∧
          p ∈ join_prices store h.lookup)) ∧
    (∀ h : Holding,
      h ∈ table → h.is_deleted = false →
      (∀ g ∈ table, g.holding_id = h.holding_id → g.is_deleted = false →
        g.id ≤ h.id) →
      (∀ u, user = some u → h.user_id = u) →
      ∃ p, (h, p) ∈ get_all_holdings_rows table store user) ∧
    ((table.map (fun h => h.id)).Nodup →
      (∀ h₁ ∈ (get_all_holdings_rows table store user).map Prod.fst,
        ∀ h₂ ∈ (get_all_holdings_rows table store user).map Prod.fst,
          h₁.holding_id = h₂.holding_id → h₁ = h₂) ∧
      (∀ (h : Holding) (p : Option ℚ),
        (h, p) ∈ get_all_holdings_rows table store user →
        ((get_all_holdings_rows table store user).map Prod.fst).count h =
          (join_prices store h.lookup).length)) ∧
    ((get_all_holdings_rows table store user).map Prod.fst).Sorted holdingLe := by
  refine ⟨fun h p => ?_, fun h ht hd hmax hu => ?_, fun hnodup => ⟨?_, ?_⟩, ?_⟩
  · rw [mem_get_all_holdings_rows, is_latest_active_iff, userFilter_iff]
    tauto
  · obtain ⟨p, hp⟩ :=
      List.exists_mem_of_ne_nil _ (join_prices_ne_nil store h.lookup)
    exact ⟨p, (mem_get_all_holdings_rows table store user h p).mpr
      ⟨ht, (is_latest_active_iff table h).mpr ⟨hd, hmax⟩,
        (userFilter_iff user h).mpr hu, hp⟩⟩
  · intro h₁ hm₁ h₂ hm₂ hid
    rcases List.mem_map.mp hm₁ with ⟨r₁, hr₁, hf₁⟩
    rcases List.mem_map.mp hm₂ with ⟨r₂, hr₂, hf₂⟩
    obtain ⟨h₁', p₁⟩ := r₁
    obtain ⟨h₂', p₂⟩ := r₂
    cases hf₁
    cases hf₂
    obtain ⟨ht₁, hl₁, -, -⟩ :=
      (mem_get_all_holdings_rows table store user h₁' p₁).mp hr₁
    obtain ⟨ht₂, hl₂, -, -⟩ :=
      (mem_get_all_holdings_rows table store user h₂' p₂).mp hr₂
    obtain ⟨hd₁, hmax₁⟩ := (is_latest_active_iff table h₁').mp hl₁
    obtain ⟨hd₂, hmax₂⟩ := (is_latest_active_iff table h₂').mp hl₂
    have h12 : h₁'.id ≤ h₂'.id := hmax₂ h₁' ht₁ hid hd₁
    have h21 : h₂'.id ≤ h₁'.id := hmax₁ h₂' ht₂ hid.symm hd₂
    exact List.inj_on_of_nodup_map hnodup ht₁ ht₂ (Nat.le_antisymm h12 h21)
  · intro h p hp
    obtain ⟨ht, hlat, huf, -⟩ :=
      (mem_get_all_holdings_rows table store user h p).mp hp
    have hsimp : ∀ g : Holding,
        ((join_prices store g.lookup).map (fun q => (g, q))).map Prod.fst =
          List.replicate (join_prices store g.lookup).length g := by
      intro g
      simp [List.map_map]
    have hperm := (List.perm_insertionSort rowLe
      (((holdings_snapshot table).filter (fun g => userFilter user g)).flatMap
        (fun g => (join_prices store g.lookup).map (fun q => (g, q))))).map
      Prod.fst
    unfold get_all_holdings_rows
    rw [hperm.count_eq, List.map_flatMap]
    simp only [hsimp]
    have hndt : table.Nodup := List.Nodup.of_map _ hnodup
    have hndf : ((holdings_snapshot table).filter
        (fun g => userFilter user g)).Nodup := by
      unfold holdings_snapshot
      exact (hndt.filter _).filter _
    have hhf : h ∈ (holdings_snapshot table).filter
        (fun g => userFilter user g) := by
      unfold holdings_snapshot
      exact List.mem_filter.mpr ⟨List.mem_filter.mpr ⟨ht, hlat⟩, huf⟩
    exact count_flatMap_replicate _ _ hndf h hhf
  · haveI : IsTotal (Holding × Option ℚ) rowLe :=
      ⟨fun a b => le_total (holdingKey a.1) (holdingKey b.1)⟩
    haveI : IsTrans (Holding × Option ℚ) rowLe :=
      ⟨fun a b c hab hbc => le_trans hab hbc⟩
    show ((get_all_holdings_rows table store user).map Prod.fst).Pairwise holdingLe
    unfold get_all_holdings_rows
    rw [List.pairwise_map]
    exact (List.sorted_insertionSort rowLe _).imp (fun hab => hab)

/-! ### Claim C8 -/

/-- The spec scenario's create request: shares 100, cost 73.10, current
price 84.50, no explicit contribution. -/
def scenario_create_data : HoldingData :=
  { account_type := "TFSA", account := "Questrade", ticker := some "VFV",
    name := "Vanguard SP500", category := some "ETF", lookup := some "VFV",
    shares := 100, cost := 731 / 10, current_price := 169 / 2,
    contribution := none, track_price := some true,
    manual_price_override := some false, value_override := none,
    convert_to_cad := none, cad_conversion_rate := none, user_id := none }

/-- Claim C8: the stored contribution of every created or updated version
is the explicitly supplied contribution when given and shares times
cost-per-share otherwise; the spec scenario (shares 100, cost 73.10,
current price 84.50) stores contribution 7310, values to 8450 with no
historical price, an absolute gain of 1140. -/
theorem C8_contribution_rule (table : List Holding) (store : List PriceRow)
    (data : HoldingData) (logical_id : String) (id now : Nat) :
    ((create_holding table store data logical_id now).1 =
        table ++ [newVersionRow (nextId table) logical_id data now] ∧
      (newVersionRow (nextId table) logical_id data now).contribution =
        data.contribution.getD (data.shares * data.cost)) ∧
    (∀ prev, table.find? (fun h => h.id == id) = some prev →
      update_holding table store id data now =
        Except.ok (table ++ [newVersionRow (nextId table) prev.holding_id data now],
          ensure_price_history_seed store (orElseStr data.lookup data.ticker)
            (some data.current_price) (data.track_price.getD true)
            (data.manual_price_override.getD false) now,
          nextId table) ∧
      (newVersionRow (nextId table) prev.holding_id data now).contribution =
        data.contribution.getD (data.shares * data.cost)) ∧
    ((create_holding [] [] scenario_create_data "L1" 0).1 =
        [newVersionRow 1 "L1" scenario_create_data 0] ∧
      (newVersionRow 1 "L1" scenario_create_data 0).contribution = 7310 ∧
      calculate_holding_value (newVersionRow 1 "L1" scenario_create_data 0) none = 8450 ∧
      calculate_holding_value (newVersionRow 1 "L1" scenario_create_data 0) none -
        (newVersionRow 1 "L1" scenario_create_data 0).contribution = 1140) := by
  refine ⟨⟨rfl, rfl⟩, fun prev hprev => ⟨?_, rfl⟩, ?_, ?_, ?_, ?_⟩
  · simp only [update_holding, hprev]
  · rfl
  · norm_num [newVersionRow, scenario_create_data]
  · norm_num [calculate_holding_value, newVersionRow, scenario_create_data]
  · norm_num [calculate_holding_value, newVersionRow, scenario_create_data]

/-! ### Claim C10 -/

lemma foldl_max_init_le (l : List Nat) (init : Nat) :
    init ≤ l.foldl Nat.max init := by
  induction l generalizing init with
  | nil => exact le_refl _
  | cons b l ih => exact le_trans (Nat.le_max_left init b) (ih (Nat.max init b))

lemma mem_le_foldl_max (l : List Nat) (a : Nat) :
    a ∈ l → ∀ init, a ≤ l.foldl Nat.max init := by
  induction l with
  | nil => intro ha; cases ha
  | cons b l ih =>
    intro ha init
    rw [List.foldl_cons]
    rcases List.mem_cons.mp ha with h | h
    · subst h
      exact le_trans (Nat.le_max_right init a) (foldl_max_init_le l _)
    · exact ih h (Nat.max init b)

/-- Every stored row id is below the next assigned id. -/
lemma id_lt_nextId (table : List Holding) (g : Holding) (hg : g ∈ table) :
    g.id < nextId table := by
  have : g.id ≤ (table.map (fun h => h.id)).foldl Nat.max 0 :=
    mem_le_foldl_max _ _ (List.mem_map_of_mem _ hg) 0
  exact Nat.lt_succ_of_le this

/-- Claim C10: every version row inserted by `create_holding` or
`update_holding` carries `user_id = "default"` (the INSERT omits the
column, whatever user_id the input or the previous version carried), and
the updated version is the new non-deleted maximum of its logical group —
so updating a holding owned by another user puts its latest version in the
default user's scope. -/
theorem C10_insert_default_user (table : List Holding) (store : List PriceRow)
    (data : HoldingData) (logical_id : String) (id now : Nat) :
    ((create_holding table store data logical_id now).1 =
        table ++ [newVersionRow (nextId table) logical_id data now] ∧
      (newVersionRow (nextId table) logical_id data now).user_id = "default") ∧
    (∀ prev, table.find? (fun h => h.id == id) = some prev →
      update_holding table store id data now =
        Except.ok (table ++ [newVersionRow (nextId table) prev.holding_id data now],
          ensure_price_history_seed store (orElseStr data.lookup data.ticker)
            (some data.current_price) (data.track_price.getD true)
            (data.manual_price_override.getD false) now,
          nextId table) ∧
      (newVersionRow (nextId table) prev.holding_id data now).user_id = "default" ∧
      (newVersionRow (nextId table) prev.holding_id data now).is_deleted = false ∧
      ∀ g ∈ table, g.id < nextId table) := by
  refine ⟨⟨rfl, rfl⟩, fun prev hprev => ?_⟩
  refine ⟨?_, rfl, rfl, fun g hg => id_lt_nextId table g hg⟩
  simp only [update_holding, hprev]

/-! ### Claim C9 -/

/-- Counterexample to C9 as stated: with two hourly samples for ticker `A`
at timestamps 0 and 100 and a limit of 2, the hourly read returns the rows
ascending — the first row does not carry the greatest timestamp. -/
theorem C9_counterexample :
    get_price_history_hourly
        [⟨"A", 1, 0⟩, ⟨"A", 2, 100⟩] "A" 2 = [(0, 1), (100, 2)] ∧
    ¬ most_recent_first (get_price_history_hourly
        [⟨"A", 1, 0⟩, ⟨"A", 2, 100⟩] "A" 2) := by
  have heval : get_price_history_hourly
      [⟨"A", 1, 0⟩, ⟨"A", 2, 100⟩] "A" 2 = [(0, 1), (100, 2)] := by
    simp [get_price_history_hourly, List.insertionSort, List.orderedInsert,
      priceRowHTsLe]
  refine ⟨heval, ?_⟩
  rw [heval]
  intro hmrf
  have := List.rel_of_pairwise_cons hmrf (List.mem_singleton_self _)
  omega

/-- Claim C9 as amended: both per-ticker reads return at most N rows; the
daily read is ordered most-recent-first (greatest date first), while the
hourly read is ordered oldest-first (ascending timestamp, so the limit
keeps the N earliest rows). -/
theorem C9_bounded_reads (store : List PriceRow) (hstore : List PriceRowH)
    (ticker : String) (n : Nat) :
    ((get_price_history store ticker n).length ≤ n ∧
      most_recent_first (get_price_history store ticker n)) ∧
    ((get_price_history_hourly hstore ticker n).length ≤ n ∧
      (get_price_history_hourly hstore ticker n).Pairwise
        (fun a b => a.1 ≤ b.1)) := by
  haveI : IsTotal PriceRow priceRowDateGe := ⟨fun a b => Nat.le_total b.date a.date⟩
  haveI : IsTrans PriceRow priceRowDateGe :=
    ⟨fun a b c hab hbc => Nat.le_trans hbc hab⟩
  haveI : IsTotal PriceRowH priceRowHTsLe :=
    ⟨fun a b => Nat.le_total a.timestamp b.timestamp⟩
  haveI : IsTrans PriceRowH priceRowHTsLe :=
    ⟨fun a b c hab hbc => Nat.le_trans hab hbc⟩
  refine ⟨⟨List.length_take_le _ _, ?_⟩, List.length_take_le _ _, ?_⟩
  · unfold most_recent_first get_price_history
    apply List.Pairwise.sublist (List.take_sublist _ _)
    rw [List.pairwise_map]
    have := List.sorted_insertionSort priceRowDateGe
      (store.filter (fun r => r.ticker == ticker))
    exact this.imp (fun h => h)
  · unfold get_price_history_hourly
    apply List.Pairwise.sublist (List.take_sublist _ _)
    rw [List.pairwise_map]
    have := List.sorted_insertionSort priceRowHTsLe
      (hstore.filter (fun r => r.ticker == ticker))
    exact this.imp (fun h => h)

/-! ### Claim C3 -/

/-- A tracked, non-cash holding whose lookup symbol is lowercase `aapl`:
one share, stored current price 5, in account type `TFSA`. -/
def c3_holding : Holding :=
  { id := 1, holding_id := "L1", account_type := "TFSA", account := "A",
    ticker := some "aapl", name := "Apple", category := "Stock",
    lookup := some "aapl", shares := 1, cost := 4, current_price := 5,
    contribution := 4, last_updated := 0, is_deleted := false,
    track_price := true, manual_price_override := false,
    value_override := none, convert_to_cad := false,
    cad_conversion_rate := none, user_id := "default" }

/-- Claim C3's failing input: one hourly price row `(aapl, 100, t=0)` and
the holding above. The portfolio-total hourly reconstructor normalizes the
price-row ticker, joins, and values the holding at 100; the per-account-type
hourly reconstructor keys its price map by the raw row ticker, so the
normalized lookup `AAPL` misses and the holding falls back to its stale
stored price 5. -/
theorem C3_hourly_acct_normalization_divergence :
    get_portfolio_history_hourly [c3_holding] [⟨"aapl", 100, 0⟩] 168 =
      [(0, 100)] ∧
    get_account_type_history_hourly [c3_holding] [⟨"aapl", 100, 0⟩] 168 =
      [("TFSA", [(0, 5)])] ∧
    (100 : ℚ) ≠ 5 := by
  have hlk : c3_holding.lookup = some "aapl" := rfl
  have hov : c3_holding.value_override = none := rfl
  have hman : c3_holding.manual_price_override = false := rfl
  have hsh : c3_holding.shares = 1 := rfl
  have hcp : c3_holding.current_price = 5 := rfl
  have hat : c3_holding.account_type = "TFSA" := rfl
  have hcash : is_cash_holding c3_holding = false := by decide
  have hns : normalize_symbol (some "aapl") = "AAPL" := by decide
  have hnb : (("AAPL" : String) == "") = false := by decide
  have hne : (("AAPL" : String) = "aapl") = False := by
    simp only [eq_iff_iff, iff_false]
    decide
  have hsnap : holdings_snapshot [c3_holding] = [c3_holding] := by decide
  refine ⟨?_, ?_, by norm_num⟩
  · simp [get_portfolio_history_hourly, hourly_price_map_total, hsnap,
      calculate_holding_value, hlk, hov, hman, hsh, hcp, hcash, hns, hnb]
  · simp [get_account_type_history_hourly, hourly_price_map_acct, hsnap,
      calculate_holding_value, bump_total, append_hist,
      hlk, hov, hman, hsh, hcp, hat, hcash, hns, hnb, hne]

/-! ### Claim C2 -/

/-- One step of the dict fold agrees pointwise with the per-key
last-write-wins step. -/
lemma priceMapStep_apply (m : String × Nat → Option (ℚ × Nat)) (row : PriceRow)
    (q : String × Nat) :
    priceMapStep m row q = lwwStep q.1 q.2 (m q) row := by
  obtain ⟨q1, q2⟩ := q
  unfold priceMapStep lwwStep
  by_cases hcond : normalize_symbol (some row.ticker) = q1 ∧ dayOf row.updated_at = q2
  · obtain ⟨h1, h2⟩ := hcond
    subst h1
    subst h2
    rcases hmk : m (normalize_symbol (some row.ticker), dayOf row.updated_at) with _ | e
    · simp [hmk]
    · simp only [hmk]
      split <;> simp [hmk]
  · have hq : ((q1, q2) : String × Nat) ≠
        (normalize_symbol (some row.ticker), dayOf row.updated_at) := by
      intro h
      rw [Prod.mk.injEq] at h
      exact hcond ⟨h.1.symm, h.2.symm⟩
    rcases hmk : m (normalize_symbol (some row.ticker), dayOf row.updated_at) with _ | e
    · simp [hmk, hq, hcond]
    · simp only [hmk]
      split <;> simp [hq, hcond]

/-- The dict built by `_build_price_map` agrees pointwise with the direct
per-key last-write-wins fold. -/
lemma foldl_priceMapStep_apply (rows : List PriceRow)
    (m : String × Nat → Option (ℚ × Nat)) (q : String × Nat) :
    (rows.foldl priceMapStep m) q = rows.foldl (lwwStep q.1 q.2) (m q) := by
  induction rows generalizing m with
  | nil => rfl
  | cons r rs ih =>
    rw [List.foldl_cons, List.foldl_cons, ih, priceMapStep_apply]

lemma lookup_build_price_map (rows : List PriceRow) (q : String × Nat) :
    (build_price_map rows).1 q = lwwEntry rows q.1 q.2 :=
  foldl_priceMapStep_apply rows (fun _ => none) q

/-- Accumulating a sum by `foldl` equals the initial value plus the mapped
sum. -/
lemma foldl_add_map (l : List Holding) (g : Holding → ℚ) (init : ℚ) :
    l.foldl (fun t h => t + g h) init = init + (l.map g).sum := by
  induction l generalizing init with
  | nil => simp
  | cons b l ih => simp [List.foldl_cons, ih, add_assoc]

/-- Claim C2: every bucket the daily reconstructor emits is a day actually
present in the window's price rows (buckets with no sample are absent),
and its value is the sum over the active-holding snapshot of the valuation
resolver applied to each holding's last-write-wins (normalized ticker, day)
price entry, `none` when absent. -/
theorem C2_daily_reconstruction (table : List Holding) (rows : List PriceRow)
    (days : Nat) :
    ∀ p ∈ get_portfolio_history table rows days,
      (∃ r ∈ rows, dayOf r.updated_at = p.1) ∧
      p.2 = ((holdings_snapshot table).map
        (fun h => calculate_holding_value h (hist_price_at rows h p.1))).sum := by
  intro p hp
  unfold get_portfolio_history at hp
  by_cases hrows : rows.isEmpty = true
  · simp [hrows] at hp
  · rw [if_neg hrows] at hp
    simp only [] at hp
    have hp' : p ∈ (build_price_map rows).2.map (fun d =>
        (d, bucket_value (holdings_snapshot table) (build_price_map rows).1 d)) := by
      revert hp
      split
      · exact fun hp => List.mem_of_mem_drop hp
      · exact fun hp => hp
    obtain ⟨d, hd, hpd⟩ := List.mem_map.mp hp'
    subst hpd
    constructor
    · have hd' : d ∈ ((rows.map (fun r => dayOf r.updated_at)).dedup) := by
        have := hd
        unfold build_price_map at this
        rwa [List.mem_insertionSort] at this
      rcases List.mem_map.mp (List.mem_dedup.mp hd') with ⟨r, hr, hrd⟩
      exact ⟨r, hr, hrd⟩
    · show bucket_value _ _ _ = _
      unfold bucket_value
      rw [foldl_add_map, zero_add]
      apply congrArg List.sum
      apply List.map_congr_left
      intro h _
      simp only [lookup_build_price_map, hist_price_at]

/-- Concrete instantiation of C2: one tracked holding (lookup `aapl`) and
one price row (`aapl`, price 100, captured at t=0); the emitted bucket 0
carries value 100 = the resolver at the last-write-wins entry. -/
theorem C2_daily_reconstruction_witness :
    (∃ r ∈ [(⟨"aapl", 100, 0, 0⟩ : PriceRow)], dayOf r.updated_at = 0) ∧
    (100 : ℚ) = ((holdings_snapshot [c3_holding]).map
      (fun h => calculate_holding_value h
        (hist_price_at [⟨"aapl", 100, 0, 0⟩] h 0))).sum := by
  have hns : normalize_symbol (some "aapl") = "AAPL" := by decide
  have hnb : (("AAPL" : String) == "") = false := by decide
  have hsnap : holdings_snapshot [c3_holding] = [c3_holding] := by decide
  have hlk : c3_holding.lookup = some "aapl" := rfl
  have hov : c3_holding.value_override = none := rfl
  have hman : c3_holding.manual_price_override = false := rfl
  have hsh : c3_holding.shares = 1 := rfl
  have hcash : is_cash_holding c3_holding = false := by decide
  have hmem : ((0 : Nat), (100 : ℚ)) ∈
      get_portfolio_history [c3_holding] [⟨"aapl", 100, 0, 0⟩] 30 := by
    simp [get_portfolio_history, build_price_map, priceMapStep, bucket_value,
      List.insertionSort, List.orderedInsert, hsnap, hns, hnb, hlk, hov,
      hman, hsh, hcash, calculate_holding_value, dayOf]
  exact C2_daily_reconstruction [c3_holding] [⟨"aapl", 100, 0, 0⟩] 30 (0, 100) hmem

/-! ### Claim C4 -/

/-- The spec scenario's single active holding: shares 10, stored current
price 5, contribution 40, owned by the default user. -/
def c4_holding : Holding :=
  { id := 1, holding_id := "M1", account_type := "TFSA", account := "A",
    ticker := some "ABC", name := "Abc", category := "Stock",
    lookup := some "ABC", shares := 10, cost := 4, current_price := 5,
    contribution := 40, last_updated := 0, is_deleted := false,
    track_price := true, manual_price_override := false,
    value_override := none, convert_to_cad := false,
    cad_conversion_rate := none, user_id := "default" }

/-- The movement calculator evaluated at the spec scenario: zero snapshots,
one active holding, a 7d-style window starting at 400000, now = 1000000. -/
lemma c4_movement_eval :
    api_portfolio_movement [] [c4_holding] [] "default" (some 400000) 1000000 =
      { current_value := 50, previous_value := 40, change := 10,
        change_percent := some 25, points := [(1000000, 50)],
        last_updated_at := 1000000 } := by
  have hhold : get_all_holdings [c4_holding] (some "default") = [c4_holding] := by
    decide
  have hlk : c4_holding.lookup = some "ABC" := rfl
  have hsh : c4_holding.shares = 10 := rfl
  have hcp : c4_holding.current_price = 5 := rfl
  have hco : c4_holding.contribution = 40 := rfl
  have hstats : enrich_stats [] (get_all_holdings [c4_holding] (some "default")) =
      { total_value := 50, total_cost := 40, total_gain := 10,
        total_gain_percent := 25, holdings_count := 1 } := by
    rw [hhold]
    norm_num [enrich_stats, enriched_current_price, latest_price_for,
      calculate_portfolio_stats, hlk, hsh, hcp, hco]
  norm_num [api_portfolio_movement, snapshots_since, latest_snapshot,
    snapshot_before, List.insertionSort, hstats]

/-- Counterexample to C4 as stated: at the scenario input the points series
is one point, not a baseline+now pair of two points. -/
theorem C4_counterexample :
    (api_portfolio_movement [] [c4_holding] [] "default"
        (some 400000) 1000000).points = [(1000000, 50)] ∧
    (api_portfolio_movement [] [c4_holding] [] "default"
        (some 400000) 1000000).points.length ≠ 2 := by
  rw [c4_movement_eval]
  exact ⟨rfl, by simp⟩

/-- Claim C4 as amended: the movement calculator returns change equal to
the live-recomputed current value minus total contribution and
changePercent equal to change over total contribution times 100, null when
the total contribution is zero; at the scenario (zero snapshots, one active
holding with shares 10, current price 5, contribution 40) it returns
currentValue 50, change 10, changePercent 25, and its points series is the
single synthetic now point (baseline and now coincide). -/
theorem C4_movement_calculator (snaps : List Snapshot) (table : List Holding)
    (store : List PriceRow) (user : String) (start : Option Nat) (now : Nat) :
    ((api_portfolio_movement snaps table store user start now).current_value =
        (enrich_stats store (get_all_holdings table (some user))).total_value ∧
      (api_portfolio_movement snaps table store user start now).change =
        (enrich_stats store (get_all_holdings table (some user))).total_value -
          (enrich_stats store (get_all_holdings table (some user))).total_cost ∧
      (api_portfolio_movement snaps table store user start now).change_percent =
        (if (enrich_stats store (get_all_holdings table (some user))).total_cost ≠ 0 then
          some ((api_portfolio_movement snaps table store user start now).change /
            (enrich_stats store (get_all_holdings table (some user))).total_cost * 100)
        else none)) ∧
    api_portfolio_movement [] [c4_holding] [] "default" (some 400000) 1000000 =
      { current_value := 50, previous_value := 40, change := 10,
        change_percent := some 25, points := [(1000000, 50)],
        last_updated_at := 1000000 } :=
  ⟨⟨rfl, rfl, rfl⟩, c4_movement_eval⟩

/-! ### Witnesses for the remaining claims -/

/-- Concrete instantiation of C5: a ticker with an existing sample at price
50 is left unchanged when seeded again at price 99. -/
theorem C5_seed_if_absent_witness :
    ensure_price_history_seed [⟨"VFV", 50, 0, 0⟩] (some "VFV") (some 99)
      true false 5 = [⟨"VFV", 50, 0, 0⟩] :=
  (C5_seed_if_absent [⟨"VFV", 50, 0, 0⟩] (some "VFV") (some 99) true false 5
      (some 99) 5).2.1
    ⟨⟨"VFV", 50, 0, 0⟩, List.mem_singleton_self _, by decide⟩

/-- Concrete instantiation of C6: row id 7 resolves to nothing in an empty
table, so update and delete both fail with the NotFound error. -/
theorem C6_update_delete_not_found_witness :
    update_holding [] [] 7 scenario_create_data 0 =
      Except.error "Holding not found" ∧
    delete_holding [] 7 = Except.error "Holding not found" :=
  (C6_update_delete_not_found [] [] 7 scenario_create_data 0).1
    (fun h hh => absurd hh (List.not_mem_nil h))

/-- Concrete instantiation of C8: the scenario create stores contribution
7310. -/
theorem C8_contribution_rule_witness :
    (newVersionRow 1 "L1" scenario_create_data 0).contribution = 7310 :=
  (C8_contribution_rule [] [] scenario_create_data "L1" 0 0).2.2.2.1

/-- Concrete instantiation of C10: the first created version is stored
under the default user. -/
theorem C10_insert_default_user_witness :
    (newVersionRow (nextId []) "L1" scenario_create_data 0).user_id = "default" :=
  (C10_insert_default_user [] [] scenario_create_data "L1" 0 0).1.2
